import Mathlib

set_option autoImplicit false

/-! Shallow embedding of the fabric event-sourced task tracker
(`src/main.rs`): event application (state materialization), the event
store reader, archival selection, and validation.  JSON payload values
are modelled by an inductive `Json` type; UTC instants are modelled as
natural numbers; timestamp parsing (an external library concern) is a
function parameter where it matters. -/

namespace Fabric

/-- JSON values, modelling `serde_json::Value`.  Numbers are restricted
to integers, which covers everything the program inspects (`as_str`,
`as_array`, `is_null`, `as_u64`). -/
inductive Json where
  | null
  | bool (b : Bool)
  | num (n : Int)
  | str (s : String)
  | arr (elems : List Json)
  | obj (fields : List (String × Json))

/-- Modelling `Value::get(key)` on an object: the value for the first
matching key, `none` on non-objects or missing keys. -/
def Json.get : Json → String → Option Json
  | .obj fields, key => fields.lookup key
  | _, _ => none

/-- Modelling `Value::as_str`. -/
def Json.as_str : Json → Option String
  | .str s => some s
  | _ => none

/-- Modelling `Value::as_array`. -/
def Json.as_array : Json → Option (List Json)
  | .arr elems => some elems
  | _ => none

/-- Modelling `Value::is_null`. -/
def Json.is_null : Json → Bool
  | .null => true
  | _ => false

/-- Modelling `Value::as_u64` (on the integer-only fragment). -/
def Json.as_u64 : Json → Option Nat
  | .num n => if n < 0 then none else some n.toNat
  | _ => none

/-- The nine event operations (`enum Operation` in `main.rs`). -/
inductive Operation where
  | Create
  | Update
  | Assign
  | Comment
  | Link
  | Unlink
  | Complete
  | Reopen
  | Archive
deriving DecidableEq, Repr

/-- Task status (`enum TaskStatus`). -/
inductive TaskStatus where
  | Open
  | Complete
deriving DecidableEq, Repr

/-- A task comment (`struct Comment`); `by_` models the Rust field `by`,
which is a reserved word in Lean. -/
structure Comment where
  ts : Nat
  by_ : String
  body : String
  ref : Option String
deriving DecidableEq, Repr

/-- A materialized task record (`struct Task`). -/
structure Task where
  id : String
  title : String
  description : Option String
  status : TaskStatus
  priority : Option String
  tags : List String
  assignee : Option String
  created : Nat
  created_by : String
  created_branch : String
  updated : Nat
  completed : Option Nat
  resolution : Option String
  parent : Option String
  blocks : List String
  blocked_by : List String
  comments : List Comment
  archived : Option String
deriving DecidableEq, Repr

/-- An event record (`struct Event`); `by_` models the Rust field `by`. -/
structure Event where
  v : Nat
  op : Operation
  id : String
  ts : Nat
  by_ : String
  branch : String
  d : Json

/-- The materialized task map.  `HashMap<String, Task>` is modelled as an
association list; the map operations below match `get` / `insert` /
`get_mut` on keys. -/
abbrev TaskMap := List (String × Task)

/-- Lookup (`HashMap::get`): value stored at the first matching key. -/
def TaskMap.find? : TaskMap → String → Option Task
  | [], _ => none
  | (k, v) :: rest, i => if k = i then some v else TaskMap.find? rest i

/-- Insert-or-replace (`HashMap::insert`). -/
def TaskMap.insert : TaskMap → String → Task → TaskMap
  | [], i, t => [(i, t)]
  | (k, v) :: rest, i, t =>
    if k = i then (i, t) :: rest else (k, v) :: TaskMap.insert rest i t

/-- Update-if-present (the `if let Some(task) = tasks.get_mut(id)`
pattern used by every non-Create operation). -/
def TaskMap.modify : TaskMap → String → (Task → Task) → TaskMap
  | [], _, _ => []
  | (k, v) :: rest, i, f =>
    if k = i then (k, f v) :: rest else (k, v) :: TaskMap.modify rest i f

/-- Modelling the recurring idiom `d.get(key).and_then(|v| v.as_str())`. -/
def getStr (d : Json) (key : String) : Option String :=
  (d.get key).bind Json.as_str

/-- Modelling the recurring idiom
`d.get(key).and_then(as_array).map(|a| a.filter_map(as_str)).unwrap_or_default()`. -/
def getStrList (d : Json) (key : String) : List String :=
  match (d.get key).bind Json.as_array with
  | some elems => elems.filterMap Json.as_str
  | none => []

/-- One step of materialization: `apply_event` from `main.rs`, translated
clause by clause. -/
def apply_event (tasks : TaskMap) (event : Event) : TaskMap :=
  match event.op with
  | .Create =>
    let d := event.d
    let task : Task :=
      { id := event.id
        title := (getStr d "title").getD ""
        description := getStr d "description"
        status := .Open
        priority := getStr d "priority"
        tags := getStrList d "tags"
        assignee := getStr d "assignee"
        created := event.ts
        created_by := event.by_
        created_branch := event.branch
        updated := event.ts
        completed := none
        resolution := none
        parent := getStr d "parent"
        blocks := getStrList d "blocks"
        blocked_by := getStrList d "blocked_by"
        comments := []
        archived := none }
    TaskMap.insert tasks event.id task
  | .Update =>
    TaskMap.modify tasks event.id fun task =>
      let d := event.d
      let task := match getStr d "title" with
        | some title => { task with title := title }
        | none => task
      let task := match getStr d "description" with
        | some desc => { task with description := some desc }
        | none => task
      let task := match getStr d "priority" with
        | some priority => { task with priority := some priority }
        | none => task
      let task := match (d.get "tags").bind Json.as_array with
        | some tags => { task with tags := tags.filterMap Json.as_str }
        | none => task
      { task with updated := event.ts }
  | .Assign =>
    TaskMap.modify tasks event.id fun task =>
      { task with
        assignee := (event.d.get "to").bind fun v =>
          if v.is_null then none else v.as_str
        updated := event.ts }
  | .Comment =>
    TaskMap.modify tasks event.id fun task =>
      { task with
        comments := task.comments ++
          [{ ts := event.ts
             by_ := event.by_
             body := (getStr event.d "body").getD ""
             ref := getStr event.d "ref" }]
        updated := event.ts }
  | .Link =>
    TaskMap.modify tasks event.id fun task =>
      let task :=
        match getStr event.d "rel", getStr event.d "target" with
        | some rel, some target =>
          match rel with
          | "blocks" =>
            if target ∈ task.blocks then task
            else { task with blocks := task.blocks ++ [target] }
          | "blocked_by" =>
            if target ∈ task.blocked_by then task
            else { task with blocked_by := task.blocked_by ++ [target] }
          | "parent" => { task with parent := some target }
          | _ => task
        | _, _ => task
      { task with updated := event.ts }
  | .Unlink =>
    TaskMap.modify tasks event.id fun task =>
      let task :=
        match getStr event.d "rel", getStr event.d "target" with
        | some rel, some target =>
          match rel with
          | "blocks" =>
            { task with blocks := task.blocks.filter (fun x => x ≠ target) }
          | "blocked_by" =>
            { task with blocked_by := task.blocked_by.filter (fun x => x ≠ target) }
          | "parent" =>
            if task.parent = some target then { task with parent := none }
            else task
          | _ => task
        | _, _ => task
      { task with updated := event.ts }
  | .Complete =>
    TaskMap.modify tasks event.id fun task =>
      { task with
        status := .Complete
        completed := some event.ts
        resolution := match getStr event.d "resolution" with
          | some r => some r
          | none => some "done"
        updated := event.ts }
  | .Reopen =>
    TaskMap.modify tasks event.id fun task =>
      { task with
        status := .Open
        completed := none
        resolution := none
        updated := event.ts }
  | .Archive =>
    TaskMap.modify tasks event.id fun task =>
      { task with
        archived := getStr event.d "ref"
        updated := event.ts }

/-- Folding a sequence of events into the map (`apply_events`). -/
def apply_events (tasks : TaskMap) (events : List Event) : TaskMap :=
  events.foldl apply_event tasks

/-- One raw line of a log file as the reader sees it: an I/O failure
while reading the line, a line whose trimmed content is empty, a line
that is not valid JSON, or a line carrying a JSON value. -/
inductive LogLine where
  | readErr (msg : String)
  | blank
  | badJson
  | good (j : Json)

/-- A log file on disk: either it exists but cannot be opened, or it
yields a sequence of raw lines. -/
inductive FileContent where
  | cantOpen (msg : String)
  | readable (lines : List LogLine)

/-- A log file together with its (sort-relevant) filename. -/
structure LogFile where
  name : String
  content : FileContent

/-- The operation names accepted by serde with
`rename_all = "snake_case"`. -/
def opOfString : String → Option Operation
  | "create" => some .Create
  | "update" => some .Update
  | "assign" => some .Assign
  | "comment" => some .Comment
  | "link" => some .Link
  | "unlink" => some .Unlink
  | "complete" => some .Complete
  | "reopen" => some .Reopen
  | "archive" => some .Archive
  | _ => none

/-- Deserializing a JSON value into the `Event` shape (serde derive):
every envelope field must be present with the right type, unknown fields
are ignored.  `parseTs` stands for the external RFC3339 timestamp
parser. -/
def jsonToEvent (parseTs : String → Option Nat) (j : Json) : Option Event := do
  let v ← (j.get "v").bind Json.as_u64
  let op ← ((j.get "op").bind Json.as_str).bind opOfString
  let id ← (j.get "id").bind Json.as_str
  let ts ← ((j.get "ts").bind Json.as_str).bind parseTs
  let by_ ← (j.get "by").bind Json.as_str
  let branch ← (j.get "branch").bind Json.as_str
  let d ← j.get "d"
  pure { v, op, id, ts, by_, branch, d }

/-- Failures of the event store reader: an unopenable file (the
`File::open(..).with_context` path), an I/O error on a line (`line?`,
which carries no file context), or a line that does not parse to an
event (`with_context` naming the file and the 1-based line number). -/
inductive ReadError where
  | openFailed (file : String) (msg : String)
  | lineFailed (msg : String)
  | parseFailed (file : String) (line : Nat)
deriving DecidableEq, Repr

/-- The line loop of `parse_events_from_file`: skip blank lines, abort
on the first line that fails to read or to parse, keep line numbers
(0-based here, reported 1-based). -/
def parseLines (parseTs : String → Option Nat) (file : String) :
    Nat → List LogLine → Except ReadError (List Event)
  | _, [] => .ok []
  | _, .readErr msg :: _ => .error (.lineFailed msg)
  | n, .blank :: rest => parseLines parseTs file (n + 1) rest
  | n, .badJson :: _ => .error (.parseFailed file (n + 1))
  | n, .good j :: rest =>
    match jsonToEvent parseTs j with
    | none => .error (.parseFailed file (n + 1))
    | some e => (parseLines parseTs file (n + 1) rest).map (e :: ·)

/-- `parse_events_from_file`: open the file, then run the line loop. -/
def parse_events_from_file (parseTs : String → Option Nat) (name : String) :
    FileContent → Except ReadError (List Event)
  | .cantOpen msg => .error (.openFailed name msg)
  | .readable lines => parseLines parseTs name 0 lines

/-- Filename order on log files (`files.sort()` on paths within one
directory). -/
def fileLe (a b : LogFile) : Prop := a.name ≤ b.name

instance : DecidableRel fileLe :=
  fun a b => inferInstanceAs (Decidable (a.name ≤ b.name))

instance : IsTotal LogFile fileLe := ⟨fun a b => le_total a.name b.name⟩

instance : IsTrans LogFile fileLe := ⟨fun _ _ _ h h' => le_trans h h'⟩

/-- Sorting a directory listing by filename, as `get_event_files` /
`get_archive_files` do. -/
def sortFiles (files : List LogFile) : List LogFile :=
  files.insertionSort fileLe

/-- The materialized snapshot (`struct State`): task map plus the
rebuild instant. -/
structure State where
  tasks : TaskMap
  rebuilt : Nat
deriving DecidableEq, Repr

/-- The per-file loop of `materialize`: parse each file and fold its
events into the map, propagating the first reader failure. -/
def applyFiles (parseTs : String → Option Nat) :
    TaskMap → List LogFile → Except ReadError TaskMap
  | tasks, [] => .ok tasks
  | tasks, f :: rest => do
    let events ← parse_events_from_file parseTs f.name f.content
    applyFiles parseTs (apply_events tasks events) rest

/-- `materialize`: replay sorted archive files, then sorted daily event
files, stamping the result with the current instant. -/
def materialize (parseTs : String → Option Nat)
    (archiveFiles eventFiles : List LogFile) (now : Nat) :
    Except ReadError State := do
  let tasks ← applyFiles parseTs [] (sortFiles archiveFiles)
  let tasks ← applyFiles parseTs tasks (sortFiles eventFiles)
  pure { tasks := tasks, rebuilt := now }

/-- Concatenating the parsed events of a file list, in file order then
line order (specification device for the global replay order). -/
def parseAll (parseTs : String → Option Nat) :
    List LogFile → Except ReadError (List Event)
  | [] => .ok []
  | f :: rest => do
    let events ← parse_events_from_file parseTs f.name f.content
    let more ← parseAll parseTs rest
    pure (events ++ more)

/-- The archive selection predicate from `archive_tasks`: completed
before the cutoff instant and not already archived. -/
def shouldArchive (cutoff : Nat) (t : Task) : Bool :=
  decide (t.status = TaskStatus.Complete)
    && (match t.completed with
        | some c => decide (c < cutoff)
        | none => false)
    && t.archived.isNone

/-- `sort_by_key(|t| t.completed)` with the standard `Option` order
(`None` before `Some`, instants ascending); the Rust sort is stable and
so is insertion sort. -/
def completedLeB (t u : Task) : Bool :=
  match t.completed, u.completed with
  | none, _ => true
  | some _, none => false
  | some a, some b => decide (a ≤ b)

def sortByCompleted (tasks : List Task) : List Task :=
  tasks.insertionSort (fun a b => completedLeB a b = true)

/-- The values of the task map, in map-iteration order (`values()`;
iteration order of the Rust `HashMap` is unspecified, which the claims
never depend on). -/
def taskValues (m : TaskMap) : List Task :=
  m.map Prod.snd

/-- The synthetic Archive event emitted for one selected task whose
completion instant is `c`; `fmtMonth` stands for the external
`format("%Y-%m")` month-key renderer. -/
def mkArchiveEvent (fmtMonth : Nat → String) (now : Nat) (branch : String)
    (t : Task) (c : Nat) : Event :=
  { v := 1
    op := .Archive
    id := t.id
    ts := now
    by_ := "@fabric"
    branch := branch
    d := Json.obj [("ref", Json.str (fmtMonth c))] }

/-- `archive_tasks`, modelled at the level of the ordered event sequence
of the active log: it returns the log after the run together with the
selected ids.  `cutoff` is the instant `now - days` the caller computes.
The copying of per-task event history into monthly rollup files is file
I/O outside the active log and is not modelled; a non-dry run appends
one synthetic Archive event per selected task (skipping, as the source
does, any selected task without a completion instant) to the end of the
log, which is where events of today's daily file are replayed. -/
def archive_tasks (fmtMonth : Nat → String) (log : List Event)
    (cutoff now : Nat) (branch : String) (dryRun : Bool) :
    List Event × List String :=
  let tasks := apply_events [] log
  let toArchive := sortByCompleted ((taskValues tasks).filter (shouldArchive cutoff))
  if toArchive.isEmpty then (log, [])
  else
    let ids := toArchive.map Task.id
    if dryRun then (log, ids)
    else
      (log ++ toArchive.filterMap
        (fun t => t.completed.map fun c => mkArchiveEvent fmtMonth now branch t c),
       ids)

/-- `struct ValidationResult`. -/
structure ValidationResult where
  errors : List String
  warnings : List String
deriving DecidableEq, Repr

/-- Failures of the `validate` call: a propagated reader error, or the
strict-mode rejections. -/
inductive VError where
  | io (e : ReadError)
  | failedErrors (count : Nat)
  | failedWarnings (count : Nat)
deriving DecidableEq, Repr

/-- The running accumulator of the validator scan: errors, warnings, and
the set of ids already Created (the `HashSet` is modelled as a
duplicate-free list). -/
abbrev VAcc := List String × List String × List String

/-- The envelope fields `validate_event_file` requires. -/
def requiredFields : List String :=
  ["v", "op", "id", "ts", "by", "branch", "d"]

/-- The per-JSON-line checks of `validate_event_file`, in source order:
missing envelope fields (errors), unknown schema version (warning),
duplicate-create and event-before-create tracking (warnings), timestamp
format (error).  `tsOk` stands for `DateTime::parse_from_rfc3339`. -/
def checkLine (tsOk : String → Bool) (filename : String) (n : Nat) (j : Json)
    (acc : VAcc) : VAcc :=
  let (errors, warnings, created) := acc
  let errors := errors ++ requiredFields.filterMap fun field =>
    if (j.get field).isNone then
      some (filename ++ ":" ++ toString (n + 1) ++
        ": Missing required field " ++ field)
    else none
  let warnings := match (j.get "v").bind Json.as_u64 with
    | some v =>
      if v ≠ 1 then
        warnings ++ [filename ++ ":" ++ toString (n + 1) ++
          ": Unknown schema version " ++ toString v]
      else warnings
    | none => warnings
  let (warnings, created) :=
    match (j.get "op").bind Json.as_str, (j.get "id").bind Json.as_str with
    | some op, some id =>
      if op = "create" then
        let warnings :=
          if id ∈ created then
            warnings ++ [filename ++ ":" ++ toString (n + 1) ++
              ": Duplicate create for task " ++ id]
          else warnings
        (warnings, if id ∈ created then created else created ++ [id])
      else if id ∈ created then (warnings, created)
      else
        (warnings ++ [filename ++ ":" ++ toString (n + 1) ++
          ": Event for task " ++ id ++ " before create"], created)
    | _, _ => (warnings, created)
  let errors := match (j.get "ts").bind Json.as_str with
    | some ts =>
      if tsOk ts then errors
      else
        errors ++ [filename ++ ":" ++ toString (n + 1) ++
          ": Invalid timestamp format: " ++ ts]
    | none => errors
  (errors, warnings, created)

/-- The line loop of `validate_event_file`: unlike the reader it records
problems and continues. -/
def validateLines (tsOk : String → Bool) (filename : String) :
    Nat → List LogLine → VAcc → VAcc
  | _, [], acc => acc
  | n, line :: rest, acc =>
    let acc := match line with
      | .readErr msg =>
        let (e, w, c) := acc
        (e ++ [filename ++ ":" ++ toString (n + 1) ++ ": Read error: " ++ msg],
         w, c)
      | .blank => acc
      | .badJson =>
        let (e, w, c) := acc
        (e ++ [filename ++ ":" ++ toString (n + 1) ++ ": Invalid JSON"], w, c)
      | .good j => checkLine tsOk filename n j acc
    validateLines tsOk filename (n + 1) rest acc

/-- `validate_event_file`: a file that cannot be opened is recorded as
an error and the function still returns normally (the Rust function
returns `Ok(())` on that path); otherwise run the line loop. -/
def validate_event_file (tsOk : String → Bool) (file : FileContent)
    (filename : String) (acc : VAcc) : VAcc :=
  match file with
  | .cantOpen msg =>
    let (e, w, c) := acc
    (e ++ ["Cannot open " ++ filename ++ ": " ++ msg], w, c)
  | .readable lines => validateLines tsOk filename 0 lines acc

/-- The referential-integrity warnings of `validate`, in task-iteration
order: dangling `blocked_by`, then `blocks`, then `parent`. -/
def orphanWarnings (m : TaskMap) : List String :=
  (taskValues m).flatMap fun task =>
    (task.blocked_by.filterMap fun b =>
      if (TaskMap.find? m b).isNone then
        some ("Task " ++ task.id ++ " references non-existent blocked_by: " ++ b)
      else none)
    ++ (task.blocks.filterMap fun b =>
      if (TaskMap.find? m b).isNone then
        some ("Task " ++ task.id ++ " references non-existent blocks: " ++ b)
      else none)
    ++ (match task.parent with
      | some p =>
        if (TaskMap.find? m p).isNone then
          ["Task " ++ task.id ++ " references non-existent parent: " ++ p]
        else []
      | none => [])

/-- `validate`: scan sorted daily files then sorted archive files with
`validate_event_file`, then materialize (propagating any reader failure,
which is how unreadable files abort the call), add referential warnings,
and apply the strict-mode gate.  The timestamp-format check reuses
`parseTs` since both sides call the same RFC3339 parser. -/
def validate (parseTs : String → Option Nat)
    (eventFiles archiveFiles : List LogFile) (now : Nat) (strict : Bool) :
    Except VError ValidationResult :=
  let tsOk : String → Bool := fun s => (parseTs s).isSome
  let acc : VAcc := ([], [], [])
  let acc := (sortFiles eventFiles).foldl
    (fun acc f => validate_event_file tsOk f.content f.name acc) acc
  let acc := (sortFiles archiveFiles).foldl
    (fun acc f => validate_event_file tsOk f.content f.name acc) acc
  let (errors, warnings, _) := acc
  match materialize parseTs archiveFiles eventFiles now with
  | .error e => .error (.io e)
  | .ok state =>
    let warnings := warnings ++ orphanWarnings state.tasks
    if strict && !errors.isEmpty then .error (.failedErrors errors.length)
    else if strict && !warnings.isEmpty then .error (.failedWarnings warnings.length)
    else .ok { errors := errors, warnings := warnings }

/-- Whether the sequence contains a Create event for the given id. -/
def hasCreate (events : List Event) (i : String) : Bool :=
  events.any fun e => decide (e.op = Operation.Create) && decide (e.id = i)

/-! Concrete sample data used by witnesses and counterexamples. -/

/-- The Create event of the concrete replay scenario. -/
def sampleCreate : Event :=
  { v := 1, op := .Create, id := "T1", ts := 1, by_ := "alice", branch := "main",
    d := Json.obj [("title", Json.str "Fix bug")] }

/-- The Comment event of the concrete replay scenario. -/
def sampleComment : Event :=
  { v := 1, op := .Comment, id := "T1", ts := 2, by_ := "alice", branch := "main",
    d := Json.obj [("body", Json.str "wip")] }

/-- The Complete event of the concrete replay scenario (no resolution in
the payload). -/
def sampleComplete : Event :=
  { v := 1, op := .Complete, id := "T1", ts := 3, by_ := "alice", branch := "main",
    d := Json.obj [] }

/-- A Reopen event for the sample task. -/
def sampleReopen : Event :=
  { v := 1, op := .Reopen, id := "T1", ts := 4, by_ := "alice", branch := "main",
    d := Json.obj [] }

/-- An Assign event whose payload has no `to` field at all. -/
def sampleAssignNoTo : Event :=
  { v := 1, op := .Assign, id := "T1", ts := 5, by_ := "alice", branch := "main",
    d := Json.obj [] }

/-- An Assign event whose payload has an explicit null `to`. -/
def sampleAssignNullTo : Event :=
  { v := 1, op := .Assign, id := "T1", ts := 6, by_ := "alice", branch := "main",
    d := Json.obj [("to", Json.null)] }

/-- An Update event for an id nothing ever Created. -/
def sampleUpdateUnknown : Event :=
  { v := 1, op := .Update, id := "T9", ts := 7, by_ := "alice", branch := "main",
    d := Json.obj [("title", Json.str "ghost")] }

/-- A Create event whose payload seeds `blocks` with a duplicated
target. -/
def dupCreate : Event :=
  { v := 1, op := .Create, id := "T1", ts := 1, by_ := "alice", branch := "main",
    d := Json.obj [("title", Json.str "t"),
                   ("blocks", Json.arr [Json.str "X", Json.str "X"])] }

/-- A Link event with rel `blocks` and target `X` for the sample task. -/
def dupLink : Event :=
  { v := 1, op := .Link, id := "T1", ts := 2, by_ := "alice", branch := "main",
    d := Json.obj [("rel", Json.str "blocks"), ("target", Json.str "X")] }

/-- A timestamp parser stub for witnesses (every string is instant 1). -/
def sampleParseTs : String → Option Nat := fun _ => some 1

/-- A JSON line that deserializes (under `sampleParseTs`) to
`sampleCreate`. -/
def sampleEventJson : Json :=
  Json.obj [("v", Json.num 1), ("op", Json.str "create"), ("id", Json.str "T1"),
            ("ts", Json.str "2024-01-01T00:00:00Z"), ("by", Json.str "alice"),
            ("branch", Json.str "main"),
            ("d", Json.obj [("title", Json.str "Fix bug")])]

/-- A well-formed daily log file holding one blank line and one event. -/
def sampleLogFile : LogFile :=
  { name := "2024-01-01.jsonl", content := .readable [.blank, .good sampleEventJson] }

/-- A log file that exists but cannot be opened. -/
def sampleUnreadableFile : LogFile :=
  { name := "2024-01-02.jsonl", content := .cantOpen "permission denied" }

/-- The task record produced by replaying just `sampleCreate`. -/
def createdT1 : Task :=
  { id := "T1", title := "Fix bug", description := none,
    status := .Open, priority := none, tags := [], assignee := none,
    created := 1, created_by := "alice", created_branch := "main",
    updated := 1, completed := none, resolution := none, parent := none,
    blocks := [], blocked_by := [], comments := [], archived := none }

/-- A line the reader accepts: blank, or a JSON value of Event shape. -/
def lineOk (parseTs : String → Option Nat) : LogLine → Bool
  | .blank => true
  | .good j => (jsonToEvent parseTs j).isSome
  | _ => false

/-- A line that is invalid JSON or fails to deserialize to the Event
shape (the failures covered by the parse-error contract, as opposed to
line I/O failures). -/
def lineBadParse (parseTs : String → Option Nat) : LogLine → Bool
  | .badJson => true
  | .good j => (jsonToEvent parseTs j).isNone
  | _ => false

/-- The event a line contributes, if any. -/
def lineEvent (parseTs : String → Option Nat) : LogLine → Option Event
  | .good j => jsonToEvent parseTs j
  | _ => none

/-! Basic lemmas about the task-map operations. -/

theorem find?_insert (m : TaskMap) (i : String) (t : Task) (j : String) :
    TaskMap.find? (TaskMap.insert m i t) j =
      if i = j then some t else TaskMap.find? m j := by
  induction m with
  | nil => simp [TaskMap.insert, TaskMap.find?]
  | cons p rest ih =>
    obtain ⟨k, v⟩ := p
    by_cases hki : k = i
    · subst hki
      by_cases hkj : k = j <;> simp [TaskMap.insert, TaskMap.find?, hkj]
    · by_cases hkj : k = j
      · subst hkj
        have hij : ¬ i = k := fun h => hki h.symm
        simp [TaskMap.insert, TaskMap.find?, hki, hij]
      · simp [TaskMap.insert, TaskMap.find?, hki, hkj, ih]

theorem find?_modify (m : TaskMap) (i : String) (f : Task → Task) (j : String) :
    TaskMap.find? (TaskMap.modify m i f) j =
      if i = j then (TaskMap.find? m j).map f else TaskMap.find? m j := by
  induction m with
  | nil => simp [TaskMap.modify, TaskMap.find?]
  | cons p rest ih =>
    obtain ⟨k, v⟩ := p
    by_cases hki : k = i
    · subst hki
      by_cases hkj : k = j <;> simp [TaskMap.modify, TaskMap.find?, hkj]
    · by_cases hkj : k = j
      · subst hkj
        have hij : ¬ i = k := fun h => hki h.symm
        simp [TaskMap.modify, TaskMap.find?, hki, hij]
      · simp [TaskMap.modify, TaskMap.find?, hki, hkj, ih]

theorem modify_of_find?_none (m : TaskMap) (i : String) (f : Task → Task)
    (h : TaskMap.find? m i = none) : TaskMap.modify m i f = m := by
  induction m with
  | nil => simp [TaskMap.modify]
  | cons p rest ih =>
    obtain ⟨k, v⟩ := p
    by_cases hki : k = i
    · subst hki; simp [TaskMap.find?] at h
    · simp [TaskMap.find?, hki] at h
      simp [TaskMap.modify, hki, ih h]

/-- Every non-Create branch of `apply_event` is an update-if-present on
the event's id, and none of the update functions touches the stored
`id` field. -/
theorem apply_event_eq_modify (e : Event)
    (hop : e.op ≠ Operation.Create) :
    ∃ f : Task → Task, (∀ m, apply_event m e = TaskMap.modify m e.id f)
      ∧ ∀ task, (f task).id = task.id := by
  obtain ⟨v, op, id, ts, by_, branch, d⟩ := e
  cases op with
  | Create => exact absurd rfl hop
  | Update =>
    refine ⟨_, fun m => rfl, fun task => ?_⟩
    dsimp only
    repeat' split
    all_goals rfl
  | Link =>
    refine ⟨_, fun m => rfl, fun task => ?_⟩
    dsimp only
    repeat' split
    all_goals rfl
  | Unlink =>
    refine ⟨_, fun m => rfl, fun task => ?_⟩
    dsimp only
    repeat' split
    all_goals rfl
  | Assign => exact ⟨_, fun m => rfl, fun task => rfl⟩
  | Comment => exact ⟨_, fun m => rfl, fun task => rfl⟩
  | Complete => exact ⟨_, fun m => rfl, fun task => rfl⟩
  | Reopen => exact ⟨_, fun m => rfl, fun task => rfl⟩
  | Archive => exact ⟨_, fun m => rfl, fun task => rfl⟩

/-- Applying a single event only ever creates the event's own id. -/
theorem isSome_find?_apply_event (m : TaskMap) (e : Event) (i : String) :
    (TaskMap.find? (apply_event m e) i).isSome =
      ((TaskMap.find? m i).isSome ||
        (decide (e.op = Operation.Create) && decide (e.id = i))) := by
  by_cases hop : e.op = Operation.Create
  · simp only [apply_event, hop, find?_insert]
    by_cases hid : e.id = i <;> simp [hid, hop]
  · obtain ⟨f, hf, _⟩ := apply_event_eq_modify e hop
    rw [hf m, find?_modify]
    by_cases hid : e.id = i <;> simp [hid, hop]

theorem apply_events_cons (m : TaskMap) (e : Event) (rest : List Event) :
    apply_events m (e :: rest) = apply_events (apply_event m e) rest := rfl

theorem apply_events_append (m : TaskMap) (l1 l2 : List Event) :
    apply_events m (l1 ++ l2) = apply_events (apply_events m l1) l2 := by
  simp [apply_events, List.foldl_append]

theorem isSome_find?_apply_events (events : List Event) (m : TaskMap) (i : String) :
    (TaskMap.find? (apply_events m events) i).isSome =
      ((TaskMap.find? m i).isSome || hasCreate events i) := by
  induction events generalizing m with
  | nil => simp [apply_events, hasCreate]
  | cons e rest ih =>
    rw [apply_events_cons, ih, isSome_find?_apply_event]
    simp [hasCreate, Bool.or_assoc]

/-- C1.  A task id is present in the materialized map exactly when the
replayed sequence holds a Create event for it; a non-Create event whose
id is absent from the map leaves the map unchanged (materialization is a
total function, so it cannot fail on such events). -/
theorem create_gating (events : List Event) (i : String) (m : TaskMap)
    (e : Event) (hop : e.op ≠ Operation.Create)
    (habs : TaskMap.find? m e.id = none) :
    (TaskMap.find? (apply_events [] events) i).isSome = hasCreate events i
    ∧ apply_event m e = m := by
  constructor
  · rw [isSome_find?_apply_events]
    simp [TaskMap.find?]
  · obtain ⟨f, hf, _⟩ := apply_event_eq_modify e hop
    rw [hf m, modify_of_find?_none m e.id f habs]

/-! Lemmas about the event store reader and the materialization loop. -/

theorem applyFiles_eq_parseAll (parseTs : String → Option Nat)
    (fs : List LogFile) (m : TaskMap) :
    applyFiles parseTs m fs = (parseAll parseTs fs).map (apply_events m) := by
  induction fs generalizing m with
  | nil => rfl
  | cons f rest ih =>
    simp only [applyFiles, parseAll, bind, Except.bind]
    cases hp : parse_events_from_file parseTs f.name f.content with
    | error e => rfl
    | ok evs =>
      simp only [ih (apply_events m evs)]
      cases hr : parseAll parseTs rest with
      | error e => rfl
      | ok more =>
        simp [Except.map, pure, Except.pure, apply_events_append]

theorem parseAll_append (parseTs : String → Option Nat)
    (fs gs : List LogFile) :
    parseAll parseTs (fs ++ gs) =
      (parseAll parseTs fs).bind
        (fun evs => (parseAll parseTs gs).map (fun more => evs ++ more)) := by
  induction fs with
  | nil =>
    simp only [List.nil_append, parseAll, Except.bind]
    cases parseAll parseTs gs with
    | error e => rfl
    | ok more => simp [Except.map]
  | cons f rest ih =>
    simp only [List.cons_append, parseAll, bind, Except.bind, List.append_eq, ih]
    cases parse_events_from_file parseTs f.name f.content with
    | error e => rfl
    | ok evs =>
      cases parseAll parseTs rest with
      | error e => rfl
      | ok more =>
        cases parseAll parseTs gs with
        | error e => rfl
        | ok tail => simp [pure, Except.pure, Except.map, List.append_assoc]

/-- `materialize` is exactly the fold of the single globally ordered
event sequence: sorted archive files first, then sorted daily files,
each file contributing its events in line order. -/
theorem materialize_eq_parseAll (parseTs : String → Option Nat)
    (archiveFiles eventFiles : List LogFile) (now : Nat) :
    materialize parseTs archiveFiles eventFiles now =
      (parseAll parseTs (sortFiles archiveFiles ++ sortFiles eventFiles)).map
        (fun evs => { tasks := apply_events [] evs, rebuilt := now }) := by
  simp only [materialize, bind, Except.bind,
    applyFiles_eq_parseAll, parseAll_append]
  cases parseAll parseTs (sortFiles archiveFiles) with
  | error e => rfl
  | ok evs =>
    simp only [Except.map, bind, Except.bind]
    cases parseAll parseTs (sortFiles eventFiles) with
    | error e => rfl
    | ok more => simp [pure, Except.pure, Except.map, apply_events_append]

/-- C2.  Materialization is deterministic: two successful runs over the
same ordered file inputs produce equal task maps, the resulting States
differing only in the `rebuilt` instant each run was stamped with. -/
theorem materialize_deterministic (parseTs : String → Option Nat)
    (archiveFiles eventFiles : List LogFile) (t1 t2 : Nat) (s1 s2 : State)
    (h1 : materialize parseTs archiveFiles eventFiles t1 = .ok s1)
    (h2 : materialize parseTs archiveFiles eventFiles t2 = .ok s2) :
    s1.tasks = s2.tasks ∧ s1.rebuilt = t1 ∧ s2.rebuilt = t2 := by
  rw [materialize_eq_parseAll] at h1 h2
  cases hp : parseAll parseTs (sortFiles archiveFiles ++ sortFiles eventFiles) with
  | error e =>
    rw [hp] at h1
    exact absurd h1 (by simp [Except.map])
  | ok evs =>
    rw [hp] at h1 h2
    simp only [Except.map, Except.ok.injEq] at h1 h2
    rw [← h1, ← h2]
    exact ⟨rfl, rfl, rfl⟩

/-- Witness for C2: one concrete daily log materialized at instants 0
and 1 yields the same task map. -/
theorem materialize_deterministic_witness :
    materialize sampleParseTs [] [sampleLogFile] 0 =
      Except.ok { tasks := apply_events [] [sampleCreate], rebuilt := 0 }
    ∧ materialize sampleParseTs [] [sampleLogFile] 1 =
      Except.ok { tasks := apply_events [] [sampleCreate], rebuilt := 1 }
    ∧ ((State.mk (apply_events [] [sampleCreate]) 0).tasks =
          (State.mk (apply_events [] [sampleCreate]) 1).tasks
      ∧ (State.mk (apply_events [] [sampleCreate]) 0).rebuilt = 0
      ∧ (State.mk (apply_events [] [sampleCreate]) 1).rebuilt = 1) := by
  refine ⟨rfl, rfl, ?_⟩
  exact materialize_deterministic sampleParseTs [] [sampleLogFile] 0 1 _ _ rfl rfl

/-- C6.  The replay order of materialization: each directory listing is
reordered into ascending filename order (a sorted permutation), and the
fold consumes exactly the concatenation of the sorted archive files
followed by the sorted daily files, each file in line order. -/
theorem materialize_global_order (parseTs : String → Option Nat)
    (archiveFiles eventFiles : List LogFile) (now : Nat) :
    List.Sorted fileLe (sortFiles archiveFiles)
    ∧ List.Perm (sortFiles archiveFiles) archiveFiles
    ∧ List.Sorted fileLe (sortFiles eventFiles)
    ∧ List.Perm (sortFiles eventFiles) eventFiles
    ∧ materialize parseTs archiveFiles eventFiles now =
        (parseAll parseTs (sortFiles archiveFiles ++ sortFiles eventFiles)).map
          (fun evs => { tasks := apply_events [] evs, rebuilt := now }) :=
  ⟨List.sorted_insertionSort fileLe archiveFiles,
   List.perm_insertionSort fileLe archiveFiles,
   List.sorted_insertionSort fileLe eventFiles,
   List.perm_insertionSort fileLe eventFiles,
   materialize_eq_parseAll parseTs archiveFiles eventFiles now⟩

/-- C3.  A Complete event on a present task sets status Complete, stamps
`completed` and `updated` with the event instant, and sets resolution to
the payload's string or the default `done`; replaying the concrete
scenario Create, Comment, Complete for T1 yields status Complete,
resolution `done`, and exactly one comment with body `wip`. -/
theorem complete_semantics (m : TaskMap) (e : Event) (t : Task)
    (hop : e.op = Operation.Complete) (hfind : TaskMap.find? m e.id = some t) :
    TaskMap.find? (apply_event m e) e.id =
      some { t with
        status := TaskStatus.Complete
        completed := some e.ts
        resolution := some ((getStr e.d "resolution").getD "done")
        updated := e.ts }
    ∧ ((TaskMap.find? (apply_events []
          [sampleCreate, sampleComment, sampleComplete]) "T1").map Task.status
        = some TaskStatus.Complete
      ∧ (TaskMap.find? (apply_events []
          [sampleCreate, sampleComment, sampleComplete]) "T1").map Task.resolution
        = some (some "done")
      ∧ (TaskMap.find? (apply_events []
          [sampleCreate, sampleComment, sampleComplete]) "T1").map
            (fun u => u.comments.map Comment.body)
        = some ["wip"]) := by
  constructor
  · simp only [apply_event, hop, find?_modify, if_pos rfl, hfind, Option.map_some']
    cases hres : getStr e.d "resolution" <;> simp [hres, Option.getD]
  · exact ⟨by decide, by decide, by decide⟩

/-- Witness for C3: completing the freshly created sample task. -/
theorem complete_semantics_witness :
    sampleComplete.op = Operation.Complete
    ∧ TaskMap.find? (apply_events [] [sampleCreate]) sampleComplete.id =
        some createdT1
    ∧ TaskMap.find? (apply_event (apply_events [] [sampleCreate]) sampleComplete)
        sampleComplete.id =
      some { createdT1 with
        status := TaskStatus.Complete
        completed := some sampleComplete.ts
        resolution := some ((getStr sampleComplete.d "resolution").getD "done")
        updated := sampleComplete.ts } := by
  refine ⟨rfl, by decide, ?_⟩
  exact (complete_semantics (apply_events [] [sampleCreate]) sampleComplete
    createdT1 rfl (by decide)).1

/-- C4.  Complete followed by Reopen on a present task restores status
Open with `completed` and `resolution` cleared, stamps `updated` with the
Reopen instant, and leaves every other field as it was before the
Complete. -/
theorem complete_reopen_round_trip (m : TaskMap) (ec er : Event) (t : Task)
    (hid : er.id = ec.id) (hc : ec.op = Operation.Complete)
    (hr : er.op = Operation.Reopen)
    (hfind : TaskMap.find? m ec.id = some t) :
    TaskMap.find? (apply_event (apply_event m ec) er) ec.id =
      some { t with
        status := TaskStatus.Open
        completed := none
        resolution := none
        updated := er.ts } := by
  simp [apply_event, hc, hr, hid, find?_modify, hfind]

/-- Witness for C4: completing then reopening the sample task. -/
theorem complete_reopen_round_trip_witness :
    sampleReopen.id = sampleComplete.id
    ∧ sampleComplete.op = Operation.Complete
    ∧ sampleReopen.op = Operation.Reopen
    ∧ TaskMap.find? (apply_events [] [sampleCreate]) sampleComplete.id =
        some createdT1
    ∧ TaskMap.find?
        (apply_event (apply_event (apply_events [] [sampleCreate]) sampleComplete)
          sampleReopen) sampleComplete.id =
      some { createdT1 with
        status := TaskStatus.Open
        completed := none
        resolution := none
        updated := sampleReopen.ts } := by
  refine ⟨rfl, rfl, rfl, by decide, ?_⟩
  exact complete_reopen_round_trip (apply_events [] [sampleCreate])
    sampleComplete sampleReopen createdT1 rfl rfl rfl (by decide)

/-- C10.  An Assign event on a present task whose payload lacks the `to`
field entirely clears the assignee, exactly as an explicit null `to`
does, and stamps `updated` with the event instant. -/
theorem assign_missing_to_clears (m : TaskMap) (e : Event) (t : Task)
    (hop : e.op = Operation.Assign) (hfind : TaskMap.find? m e.id = some t) :
    (e.d.get "to" = none →
      TaskMap.find? (apply_event m e) e.id =
        some { t with assignee := none, updated := e.ts })
    ∧ (e.d.get "to" = some Json.null →
      TaskMap.find? (apply_event m e) e.id =
        some { t with assignee := none, updated := e.ts }) := by
  constructor <;> intro hto <;>
    simp [apply_event, hop, find?_modify, hfind, hto, Json.is_null]

/-- Witness for C10: assigning with an absent `to` and with a null `to`
both clear the assignee of the sample task. -/
theorem assign_missing_to_clears_witness :
    sampleAssignNoTo.op = Operation.Assign
    ∧ TaskMap.find? (apply_events [] [sampleCreate]) sampleAssignNoTo.id =
        some createdT1
    ∧ sampleAssignNoTo.d.get "to" = none
    ∧ TaskMap.find? (apply_event (apply_events [] [sampleCreate]) sampleAssignNoTo)
        sampleAssignNoTo.id =
      some { createdT1 with assignee := none, updated := sampleAssignNoTo.ts }
    ∧ sampleAssignNullTo.d.get "to" = some Json.null
    ∧ TaskMap.find? (apply_event (apply_events [] [sampleCreate]) sampleAssignNullTo)
        sampleAssignNullTo.id =
      some { createdT1 with assignee := none, updated := sampleAssignNullTo.ts } := by
  refine ⟨rfl, by decide, rfl, ?_, rfl, ?_⟩
  · exact (assign_missing_to_clears (apply_events [] [sampleCreate])
      sampleAssignNoTo createdT1 rfl (by decide)).1 rfl
  · exact (assign_missing_to_clears (apply_events [] [sampleCreate])
      sampleAssignNullTo createdT1 rfl (by decide)).2 rfl

/-! Lemmas about the line loop of the reader. -/

theorem parseLines_clean (parseTs : String → Option Nat) (file : String)
    (lines : List LogLine) (n : Nat)
    (h : lines.all (lineOk parseTs) = true) :
    parseLines parseTs file n lines =
      .ok (lines.filterMap (lineEvent parseTs)) := by
  induction lines generalizing n with
  | nil => rfl
  | cons l rest ih =>
    simp only [List.all_cons, Bool.and_eq_true] at h
    obtain ⟨hl, hrest⟩ := h
    cases l with
    | readErr msg => simp [lineOk] at hl
    | blank =>
      simp [parseLines, lineEvent, ih (n + 1) hrest]
    | badJson => simp [lineOk] at hl
    | good j =>
      simp only [lineOk, Option.isSome_iff_exists] at hl
      obtain ⟨e, he⟩ := hl
      simp [parseLines, he, ih (n + 1) hrest, Except.map, lineEvent]

theorem parseLines_first_bad (parseTs : String → Option Nat) (file : String)
    (pre suf : List LogLine) (l : LogLine) (n : Nat)
    (hpre : pre.all (lineOk parseTs) = true)
    (hl : lineBadParse parseTs l = true) :
    parseLines parseTs file n (pre ++ l :: suf) =
      .error (.parseFailed file (n + pre.length + 1)) := by
  induction pre generalizing n with
  | nil =>
    cases l with
    | readErr msg => simp [lineBadParse] at hl
    | blank => simp [lineBadParse] at hl
    | badJson => simp [parseLines]
    | good j =>
      simp only [lineBadParse, Option.isNone_iff_eq_none] at hl
      simp [parseLines, hl]
  | cons p pre ih =>
    simp only [List.all_cons, Bool.and_eq_true] at hpre
    obtain ⟨hp, hpre⟩ := hpre
    have harith : (n + 1) + pre.length + 1 = n + (p :: pre).length + 1 := by
      simp [List.length_cons]; omega
    cases p with
    | readErr msg => simp [lineOk] at hp
    | blank =>
      rw [List.cons_append]
      show parseLines parseTs file (n + 1) (pre ++ l :: suf) = _
      rw [ih (n + 1) hpre, harith]
    | badJson => simp [lineOk] at hp
    | good j =>
      simp only [lineOk, Option.isSome_iff_exists] at hp
      obtain ⟨e, he⟩ := hp
      rw [List.cons_append]
      rw [show parseLines parseTs file n (LogLine.good j :: (pre ++ l :: suf)) =
          (parseLines parseTs file (n + 1) (pre ++ l :: suf)).map
            (fun es => e :: es) by
        simp [parseLines, he]]
      rw [ih (n + 1) hpre]
      simp [Except.map, harith]

/-- C7.  Reading a log file fails on the first line that is invalid JSON
or does not deserialize to the Event shape, with an error naming the
file and the 1-based line number; the whole read of that file aborts (no
event of the file is returned), blank lines before the bad line are
skipped but still counted, and a file without bad lines parses to
exactly its non-blank events, unaffected by failures elsewhere. -/
theorem parse_error_aborts (parseTs : String → Option Nat) (file : String)
    (pre suf : List LogLine) (l : LogLine) (other : String)
    (lines2 : List LogLine)
    (hpre : pre.all (lineOk parseTs) = true)
    (hl : lineBadParse parseTs l = true)
    (hclean : lines2.all (lineOk parseTs) = true) :
    parse_events_from_file parseTs file (.readable (pre ++ l :: suf)) =
      .error (.parseFailed file (pre.length + 1))
    ∧ parse_events_from_file parseTs other (.readable lines2) =
      .ok (lines2.filterMap (lineEvent parseTs)) := by
  constructor
  · show parseLines parseTs file 0 (pre ++ l :: suf) = _
    rw [parseLines_first_bad parseTs file pre suf l 0 hpre hl]
    simp
  · exact parseLines_clean parseTs other lines2 0 hclean

/-- Witness for C7: a bad third line aborts one file at line 3 while a
clean file still parses to its single event. -/
theorem parse_error_aborts_witness :
    ([LogLine.blank, LogLine.good sampleEventJson].all (lineOk sampleParseTs)
      = true)
    ∧ lineBadParse sampleParseTs LogLine.badJson = true
    ∧ (parse_events_from_file sampleParseTs "2024-01-01.jsonl"
        (.readable ([LogLine.blank, LogLine.good sampleEventJson] ++
          LogLine.badJson :: [LogLine.good sampleEventJson])) =
        .error (.parseFailed "2024-01-01.jsonl" 3)
      ∧ parse_events_from_file sampleParseTs "2024-01-02.jsonl"
          (.readable [LogLine.blank, LogLine.good sampleEventJson]) =
        .ok ([LogLine.blank, LogLine.good sampleEventJson].filterMap
          (lineEvent sampleParseTs))) := by
  refine ⟨by decide, rfl, ?_⟩
  exact parse_error_aborts sampleParseTs "2024-01-01.jsonl"
    [LogLine.blank, LogLine.good sampleEventJson]
    [LogLine.good sampleEventJson] LogLine.badJson "2024-01-02.jsonl"
    [LogLine.blank, LogLine.good sampleEventJson] (by decide) rfl (by decide)

/-- Counterexample to C5 as frozen: a Create payload may seed `blocks`
with a duplicated target (the Create branch copies the payload array
without de-duplication), and then applying the same Link event twice
leaves the target present twice, not exactly once. -/
theorem link_set_semantics_counterexample :
    (TaskMap.find? (apply_events [] [dupCreate, dupLink, dupLink]) "T1").map
      (fun u => u.blocks.count "X") = some 2
    ∧ some 2 ≠ (some 1 : Option Nat) :=
  ⟨by decide, by decide⟩

/-- C5 (amended).  For a present task, applying the same Link event with
rel `blocks` and target X twice yields X exactly once in `blocks`
provided X occurred at most once there beforehand (the Create payload
can seed duplicates, which Link preserves); likewise for `blocked_by`;
an unrecognized rel value changes no link field; in all cases `updated`
becomes the event instant. -/
theorem link_set_semantics (m : TaskMap) (e : Event) (t : Task) (x : String)
    (hop : e.op = Operation.Link) (hfind : TaskMap.find? m e.id = some t) :
    (getStr e.d "rel" = some "blocks" → getStr e.d "target" = some x →
      t.blocks.count x ≤ 1 →
      (TaskMap.find? (apply_event (apply_event m e) e) e.id).map
        (fun u => u.blocks.count x) = some 1)
    ∧ (getStr e.d "rel" = some "blocked_by" → getStr e.d "target" = some x →
      t.blocked_by.count x ≤ 1 →
      (TaskMap.find? (apply_event (apply_event m e) e) e.id).map
        (fun u => u.blocked_by.count x) = some 1)
    ∧ ((getStr e.d "rel").isSome = true →
      getStr e.d "rel" ≠ some "blocks" →
      getStr e.d "rel" ≠ some "blocked_by" →
      getStr e.d "rel" ≠ some "parent" →
      TaskMap.find? (apply_event m e) e.id =
        some { t with updated := e.ts })
    ∧ (TaskMap.find? (apply_event (apply_event m e) e) e.id).map Task.updated
        = some e.ts := by
  refine ⟨?_, ?_, ?_, ?_⟩
  · intro hrel htgt hcount
    by_cases hmem : x ∈ t.blocks
    · have h1 : t.blocks.count x = 1 :=
        Nat.le_antisymm hcount (List.count_pos_iff.mpr hmem)
      simp [apply_event, hop, find?_modify, hfind, hrel, htgt, hmem, h1]
    · have h0 : t.blocks.count x = 0 := List.count_eq_zero.mpr hmem
      simp [apply_event, hop, find?_modify, hfind, hrel, htgt, hmem, h0]
  · intro hrel htgt hcount
    by_cases hmem : x ∈ t.blocked_by
    · have h1 : t.blocked_by.count x = 1 :=
        Nat.le_antisymm hcount (List.count_pos_iff.mpr hmem)
      simp [apply_event, hop, find?_modify, hfind, hrel, htgt, hmem, h1]
    · have h0 : t.blocked_by.count x = 0 := List.count_eq_zero.mpr hmem
      simp [apply_event, hop, find?_modify, hfind, hrel, htgt, hmem, h0]
  · intro hsome hb hbb hp
    obtain ⟨r, hr⟩ := Option.isSome_iff_exists.mp hsome
    have hrb : r ≠ "blocks" := by rintro rfl; exact hb hr
    have hrbb : r ≠ "blocked_by" := by rintro rfl; exact hbb hr
    have hrp : r ≠ "parent" := by rintro rfl; exact hp hr
    cases htgt : getStr e.d "target" with
    | none => simp [apply_event, hop, find?_modify, hfind, hr, htgt]
    | some target =>
      simp [apply_event, hop, find?_modify, hfind, hr, htgt, hrb, hrbb, hrp]
  · simp [apply_event, hop, find?_modify, hfind]

/-- Witness for the amended C5: linking X to the freshly created task
twice yields X once, and `updated` carries the Link instant. -/
theorem link_set_semantics_witness :
    dupLink.op = Operation.Link
    ∧ TaskMap.find? (apply_events [] [sampleCreate]) dupLink.id = some createdT1
    ∧ getStr dupLink.d "rel" = some "blocks"
    ∧ getStr dupLink.d "target" = some "X"
    ∧ createdT1.blocks.count "X" ≤ 1
    ∧ (TaskMap.find?
        (apply_event (apply_event (apply_events [] [sampleCreate]) dupLink)
          dupLink) dupLink.id).map (fun u => u.blocks.count "X") = some 1
    ∧ (TaskMap.find?
        (apply_event (apply_event (apply_events [] [sampleCreate]) dupLink)
          dupLink) dupLink.id).map Task.updated = some dupLink.ts := by
  refine ⟨rfl, by decide, rfl, rfl, by decide, ?_, ?_⟩
  · exact (link_set_semantics (apply_events [] [sampleCreate]) dupLink
      createdT1 "X" rfl (by decide)).1 rfl rfl (by decide)
  · exact (link_set_semantics (apply_events [] [sampleCreate]) dupLink
      createdT1 "X" rfl (by decide)).2.2.2

/-- Witness for C1 at a concrete sequence: one Create for T1 makes T1
present, and an Update for the never-created T9 leaves the empty map
unchanged. -/
theorem create_gating_witness :
    sampleUpdateUnknown.op ≠ Operation.Create
    ∧ TaskMap.find? [] sampleUpdateUnknown.id = none
    ∧ ((TaskMap.find? (apply_events [] [sampleCreate]) "T1").isSome =
        hasCreate [sampleCreate] "T1"
      ∧ apply_event [] sampleUpdateUnknown = []) := by
  refine ⟨by decide, rfl, ?_⟩
  exact create_gating [sampleCreate] "T1" [] sampleUpdateUnknown (by decide) rfl

/-! Map invariants used by the archive development: the key list stays
duplicate-free, every stored task's `id` equals its key, and single-id
updates leave other ids untouched. -/

theorem keys_modify (m : TaskMap) (i : String) (f : Task → Task) :
    (TaskMap.modify m i f).map Prod.fst = m.map Prod.fst := by
  induction m with
  | nil => rfl
  | cons p rest ih =>
    obtain ⟨k, v⟩ := p
    by_cases hki : k = i <;> simp [TaskMap.modify, hki, ih]

theorem keys_insert (m : TaskMap) (i : String) (t : Task) :
    (TaskMap.insert m i t).map Prod.fst =
      if i ∈ m.map Prod.fst then m.map Prod.fst else m.map Prod.fst ++ [i] := by
  induction m with
  | nil => simp [TaskMap.insert]
  | cons p rest ih =>
    obtain ⟨k, v⟩ := p
    by_cases hki : k = i
    · subst hki; simp [TaskMap.insert]
    · have hik : ¬ i = k := fun h => hki h.symm
      by_cases hmem : i ∈ rest.map Prod.fst <;>
        simp [TaskMap.insert, hki, hik, hmem, ih]

theorem nodup_keys_apply_event (m : TaskMap) (e : Event)
    (h : (m.map Prod.fst).Nodup) :
    ((apply_event m e).map Prod.fst).Nodup := by
  by_cases hop : e.op = Operation.Create
  · simp only [apply_event, hop, keys_insert]
    by_cases hmem : e.id ∈ m.map Prod.fst
    · simpa [hmem] using h
    · simp [hmem, List.nodup_append, h]
  · obtain ⟨f, hf, _⟩ := apply_event_eq_modify e hop
    rw [hf m, keys_modify]
    exact h

theorem nodup_keys_apply_events (events : List Event) (m : TaskMap)
    (h : (m.map Prod.fst).Nodup) :
    ((apply_events m events).map Prod.fst).Nodup := by
  induction events generalizing m with
  | nil => exact h
  | cons e rest ih =>
    rw [apply_events_cons]
    exact ih _ (nodup_keys_apply_event m e h)

theorem idsMatch_apply_event (m : TaskMap) (e : Event)
    (h : ∀ i t, TaskMap.find? m i = some t → t.id = i) :
    ∀ i t, TaskMap.find? (apply_event m e) i = some t → t.id = i := by
  intro i t ht
  by_cases hop : e.op = Operation.Create
  · simp only [apply_event, hop, find?_insert] at ht
    by_cases hei : e.id = i
    · rw [if_pos hei] at ht
      simp only [Option.some.injEq] at ht
      rw [← ht]
      exact hei
    · rw [if_neg hei] at ht
      exact h i t ht
  · obtain ⟨f, hf, hid⟩ := apply_event_eq_modify e hop
    rw [hf m, find?_modify] at ht
    by_cases hei : e.id = i
    · rw [if_pos hei] at ht
      cases hmi : TaskMap.find? m i with
      | none => rw [hmi] at ht; exact absurd ht (by simp)
      | some t0 =>
        rw [hmi] at ht
        simp only [Option.map_some', Option.some.injEq] at ht
        rw [← ht, hid t0]
        exact h i t0 hmi
    · rw [if_neg hei] at ht
      exact h i t ht

theorem idsMatch_apply_events (events : List Event) (m : TaskMap)
    (h : ∀ i t, TaskMap.find? m i = some t → t.id = i) :
    ∀ i t, TaskMap.find? (apply_events m events) i = some t → t.id = i := by
  induction events generalizing m with
  | nil => exact h
  | cons e rest ih =>
    rw [apply_events_cons]
    exact ih _ (idsMatch_apply_event m e h)

theorem mem_of_find?_eq_some (m : TaskMap) (i : String) (t : Task)
    (h : TaskMap.find? m i = some t) : (i, t) ∈ m := by
  induction m with
  | nil => simp [TaskMap.find?] at h
  | cons p rest ih =>
    obtain ⟨k, v⟩ := p
    by_cases hki : k = i
    · subst hki
      have hv : v = t := by simpa [TaskMap.find?] using h
      subst hv
      exact List.mem_cons_self _ _
    · have h' : TaskMap.find? rest i = some t := by
        simpa [TaskMap.find?, hki] using h
      exact List.mem_cons_of_mem _ (ih h')

theorem find?_eq_some_of_mem (m : TaskMap) (i : String) (t : Task)
    (hnd : (m.map Prod.fst).Nodup) (h : (i, t) ∈ m) :
    TaskMap.find? m i = some t := by
  induction m with
  | nil => simp at h
  | cons p rest ih =>
    obtain ⟨k, v⟩ := p
    simp only [List.map_cons, List.nodup_cons] at hnd
    rcases List.mem_cons.mp h with heq | hmem
    · have hik : i = k := congrArg Prod.fst heq
      have htv : t = v := congrArg Prod.snd heq
      subst hik
      subst htv
      simp [TaskMap.find?]
    · by_cases hki : k = i
      · subst hki
        exact absurd (List.mem_map_of_mem Prod.fst hmem) hnd.1
      · simp [TaskMap.find?, hki, ih hnd.2 hmem]

theorem find?_apply_event_ne (m : TaskMap) (e : Event) (i : String)
    (hne : e.id ≠ i) :
    TaskMap.find? (apply_event m e) i = TaskMap.find? m i := by
  by_cases hop : e.op = Operation.Create
  · simp only [apply_event, hop, find?_insert, if_neg hne]
  · obtain ⟨f, hf, _⟩ := apply_event_eq_modify e hop
    rw [hf m, find?_modify, if_neg hne]

theorem keys_apply_event_nonCreate (m : TaskMap) (e : Event)
    (hop : e.op ≠ Operation.Create) :
    (apply_event m e).map Prod.fst = m.map Prod.fst := by
  obtain ⟨f, hf, _⟩ := apply_event_eq_modify e hop
  rw [hf m, keys_modify]

/-! Lemmas about replaying the synthetic Archive events. -/

theorem find?_apply_mkArchiveEvent (m : TaskMap) (fmtMonth : Nat → String)
    (now : Nat) (branch : String) (t : Task) (c : Nat) (i : String) :
    TaskMap.find? (apply_event m (mkArchiveEvent fmtMonth now branch t c)) i =
      if t.id = i then
        (TaskMap.find? m i).map
          (fun task => { task with archived := some (fmtMonth c), updated := now })
      else TaskMap.find? m i := by
  simp [apply_event, mkArchiveEvent, find?_modify, getStr, Json.get,
    Json.as_str, List.lookup]

theorem find?_archive_fold_miss (fmtMonth : Nat → String) (now : Nat)
    (branch : String) (sel : List Task) (m : TaskMap) (i : String)
    (hne : ∀ t ∈ sel, t.id ≠ i) :
    TaskMap.find? (apply_events m (sel.filterMap
      (fun t => t.completed.map (mkArchiveEvent fmtMonth now branch t)))) i =
    TaskMap.find? m i := by
  induction sel generalizing m with
  | nil => rfl
  | cons h rest ih =>
    have hhi : h.id ≠ i := hne h (List.mem_cons_self h rest)
    have hrest : ∀ t ∈ rest, t.id ≠ i :=
      fun t ht => hne t (List.mem_cons_of_mem h ht)
    cases hc : h.completed with
    | none => simpa [List.filterMap_cons, hc] using ih m hrest
    | some c =>
      simp only [List.filterMap_cons, hc, Option.map_some', apply_events_cons]
      rw [ih _ hrest, find?_apply_mkArchiveEvent, if_neg hhi]

theorem find?_archive_fold_hit (fmtMonth : Nat → String) (now : Nat)
    (branch : String) (sel : List Task) (m : TaskMap) (t0 : Task) (c : Nat)
    (hids : (sel.map Task.id).Nodup)
    (hc : ∀ t ∈ sel, t.completed.isSome = true)
    (ht0 : t0 ∈ sel) (hcomp : t0.completed = some c) :
    TaskMap.find? (apply_events m (sel.filterMap
      (fun t => t.completed.map (mkArchiveEvent fmtMonth now branch t)))) t0.id =
    (TaskMap.find? m t0.id).map
      (fun task => { task with archived := some (fmtMonth c), updated := now }) := by
  induction sel generalizing m with
  | nil => simp at ht0
  | cons h rest ih =>
    simp only [List.map_cons, List.nodup_cons] at hids
    rcases List.mem_cons.mp ht0 with heq | hmem
    · subst heq
      have hrest : ∀ t ∈ rest, t.id ≠ t0.id := by
        intro t ht hteq
        exact hids.1 (hteq ▸ List.mem_map_of_mem Task.id ht)
      simp only [List.filterMap_cons, hcomp, Option.map_some', apply_events_cons]
      rw [find?_archive_fold_miss fmtMonth now branch rest _ t0.id hrest,
        find?_apply_mkArchiveEvent, if_pos rfl]
    · have hhne : h.id ≠ t0.id := by
        intro hteq
        exact hids.1 (hteq ▸ List.mem_map_of_mem Task.id hmem)
      have hcrest : ∀ t ∈ rest, t.completed.isSome = true :=
        fun t ht => hc t (List.mem_cons_of_mem h ht)
      cases hch : h.completed with
      | none =>
        have hsome := hc h (List.mem_cons_self h rest)
        rw [hch] at hsome
        simp at hsome
      | some ch =>
        simp only [List.filterMap_cons, hch, Option.map_some', apply_events_cons]
        rw [ih _ hids.2 hcrest hmem,
          find?_apply_mkArchiveEvent, if_neg hhne]

theorem shouldArchive_eq_true (cutoff : Nat) (t : Task) :
    shouldArchive cutoff t = true ↔
      t.status = TaskStatus.Complete
      ∧ (∃ c, t.completed = some c ∧ c < cutoff)
      ∧ t.archived = none := by
  unfold shouldArchive
  cases hc : t.completed with
  | none => simp [hc]
  | some c =>
    cases ha : t.archived <;> simp [hc, ha]

theorem shouldArchive_of_archived (cutoff : Nat) (t : Task)
    (h : t.archived.isSome = true) : shouldArchive cutoff t = false := by
  obtain ⟨a, ha⟩ := Option.isSome_iff_exists.mp h
  unfold shouldArchive
  simp [ha]

/-- Unfolding one non-dry archive run into its two outcomes. -/
theorem archive_tasks_run (fmtMonth : Nat → String) (log : List Event)
    (cutoff now : Nat) (branch : String) :
    archive_tasks fmtMonth log cutoff now branch false =
      if (sortByCompleted ((taskValues (apply_events [] log)).filter
            (shouldArchive cutoff))).isEmpty
      then (log, [])
      else
        (log ++ (sortByCompleted ((taskValues (apply_events [] log)).filter
            (shouldArchive cutoff))).filterMap
              (fun t => t.completed.map (mkArchiveEvent fmtMonth now branch t)),
         (sortByCompleted ((taskValues (apply_events [] log)).filter
            (shouldArchive cutoff))).map Task.id) := by
  simp only [archive_tasks]
  by_cases h : (sortByCompleted ((taskValues (apply_events [] log)).filter
      (shouldArchive cutoff))).isEmpty <;>
    simp [h]

/-- C8.  A non-dry archive run appends one synthetic Archive event with
payload field `ref` holding the month key per selected task to the end
of the log; replaying the resulting log leaves every selected id with a
non-null `archived` marker; and immediately re-running archive over the
resulting log with the same cutoff selects nothing and returns the empty
id list. -/
theorem archive_idempotent (fmtMonth : Nat → String) (log : List Event)
    (cutoff now now2 : Nat) (branch branch2 : String) :
    (archive_tasks fmtMonth log cutoff now branch false).1 =
      log ++ (sortByCompleted ((taskValues (apply_events [] log)).filter
        (shouldArchive cutoff))).filterMap
          (fun t => t.completed.map (mkArchiveEvent fmtMonth now branch t))
    ∧ ((archive_tasks fmtMonth log cutoff now branch false).2).all
        (fun i => ((TaskMap.find?
            (apply_events [] (archive_tasks fmtMonth log cutoff now branch false).1)
            i).bind Task.archived).isSome) = true
    ∧ (archive_tasks fmtMonth
        (archive_tasks fmtMonth log cutoff now branch false).1
        cutoff now2 branch2 false).2 = [] := by
  have hnodup0 : ((apply_events [] log).map Prod.fst).Nodup :=
    nodup_keys_apply_events log [] (by simp)
  have hids0 : ∀ i t, TaskMap.find? (apply_events [] log) i = some t → t.id = i :=
    idsMatch_apply_events log []
      (by intro i t h; simp [TaskMap.find?] at h)
  have hvalues_ids : (taskValues (apply_events [] log)).map Task.id =
      (apply_events [] log).map Prod.fst := by
    show ((apply_events [] log).map Prod.snd).map Task.id = _
    rw [List.map_map]
    refine List.map_congr_left ?_
    intro p hp
    exact hids0 p.1 p.2
      (find?_eq_some_of_mem _ p.1 p.2 hnodup0 (by simpa using hp))
  have hsel_sub : ∀ t ∈ sortByCompleted ((taskValues (apply_events [] log)).filter
        (shouldArchive cutoff)),
      t ∈ (taskValues (apply_events [] log)).filter (shouldArchive cutoff) :=
    fun t ht => (List.perm_insertionSort _ _).mem_iff.mp ht
  have hsel_pred : ∀ t ∈ sortByCompleted ((taskValues (apply_events [] log)).filter
        (shouldArchive cutoff)), shouldArchive cutoff t = true :=
    fun t ht => (List.mem_filter.mp (hsel_sub t ht)).2
  have hsel_find : ∀ t ∈ sortByCompleted ((taskValues (apply_events [] log)).filter
        (shouldArchive cutoff)),
      TaskMap.find? (apply_events [] log) t.id = some t := by
    intro t ht
    obtain ⟨p, hp, hpt⟩ :=
      List.mem_map.mp (List.mem_filter.mp (hsel_sub t ht)).1
    have hf : TaskMap.find? (apply_events [] log) p.1 = some p.2 :=
      find?_eq_some_of_mem _ p.1 p.2 hnodup0 (by simpa using hp)
    have hid : p.2.id = p.1 := hids0 p.1 p.2 hf
    rw [hpt] at hf hid
    rw [hid]
    exact hf
  have hsel_completed : ∀ t ∈ sortByCompleted
        ((taskValues (apply_events [] log)).filter (shouldArchive cutoff)),
      t.completed.isSome = true := by
    intro t ht
    obtain ⟨-, ⟨c, hc, -⟩, -⟩ :=
      (shouldArchive_eq_true cutoff t).mp (hsel_pred t ht)
    rw [hc]
    rfl
  have hsel_nodup : ((sortByCompleted ((taskValues (apply_events [] log)).filter
        (shouldArchive cutoff))).map Task.id).Nodup := by
    have h1 : (((taskValues (apply_events [] log)).filter
        (shouldArchive cutoff)).map Task.id).Nodup := by
      have hsub : List.Sublist
          (((taskValues (apply_events [] log)).filter
            (shouldArchive cutoff)).map Task.id)
          ((taskValues (apply_events [] log)).map Task.id) :=
        (List.filter_sublist _).map Task.id
      exact (hvalues_ids ▸ hnodup0).sublist hsub
    have h2 := ((List.perm_insertionSort
      (fun a b => completedLeB a b = true)
      ((taskValues (apply_events [] log)).filter (shouldArchive cutoff)))).map Task.id
    exact h2.nodup_iff.mpr h1
  refine ⟨?_, ?_, ?_⟩
  · rw [archive_tasks_run]
    by_cases hempty : (sortByCompleted ((taskValues (apply_events [] log)).filter
        (shouldArchive cutoff))).isEmpty
    · rw [if_pos hempty]
      rw [List.isEmpty_iff.mp hempty]
      simp
    · rw [if_neg hempty]
  · rw [archive_tasks_run]
    by_cases hempty : (sortByCompleted ((taskValues (apply_events [] log)).filter
        (shouldArchive cutoff))).isEmpty
    · rw [if_pos hempty]
      rfl
    · rw [if_neg hempty]
      rw [List.all_eq_true]
      intro i hi
      obtain ⟨t0, ht0, rfl⟩ := List.mem_map.mp hi
      obtain ⟨-, ⟨c, hc, -⟩, -⟩ :=
        (shouldArchive_eq_true cutoff t0).mp (hsel_pred t0 ht0)
      rw [apply_events_append,
        find?_archive_fold_hit fmtMonth now branch _ _ t0 c hsel_nodup
          hsel_completed ht0 hc,
        hsel_find t0 ht0]
      rfl
  · rw [archive_tasks_run fmtMonth log cutoff now branch]
    by_cases hempty : (sortByCompleted ((taskValues (apply_events [] log)).filter
        (shouldArchive cutoff))).isEmpty
    · rw [if_pos hempty]
      show (archive_tasks fmtMonth log cutoff now2 branch2 false).2 = []
      rw [archive_tasks_run fmtMonth log cutoff now2 branch2, if_pos hempty]
    · rw [if_neg hempty]
      show (archive_tasks fmtMonth
        (log ++ (sortByCompleted ((taskValues (apply_events [] log)).filter
          (shouldArchive cutoff))).filterMap
            (fun t => t.completed.map (mkArchiveEvent fmtMonth now branch t)))
        cutoff now2 branch2 false).2 = []
      have hfilter2 : (taskValues (apply_events [] (log ++
          (sortByCompleted ((taskValues (apply_events [] log)).filter
            (shouldArchive cutoff))).filterMap
              (fun t => t.completed.map (mkArchiveEvent fmtMonth now branch t))))).filter
          (shouldArchive cutoff) = [] := by
        rw [List.filter_eq_nil_iff]
        intro t' ht'
        obtain ⟨p, hp, hpt⟩ := List.mem_map.mp ht'
        have hnd1 : ((apply_events [] (log ++
            (sortByCompleted ((taskValues (apply_events [] log)).filter
              (shouldArchive cutoff))).filterMap
                (fun t => t.completed.map
                  (mkArchiveEvent fmtMonth now branch t)))).map Prod.fst).Nodup :=
          nodup_keys_apply_events _ [] (by simp)
        have hf1 : TaskMap.find? (apply_events [] (log ++
            (sortByCompleted ((taskValues (apply_events [] log)).filter
              (shouldArchive cutoff))).filterMap
                (fun t => t.completed.map
                  (mkArchiveEvent fmtMonth now branch t)))) p.1 = some p.2 :=
          find?_eq_some_of_mem _ p.1 p.2 hnd1 (by simpa using hp)
        rw [apply_events_append] at hf1
        by_cases hksel : ∃ t0 ∈ sortByCompleted
            ((taskValues (apply_events [] log)).filter (shouldArchive cutoff)),
            t0.id = p.1
        · obtain ⟨t0, ht0, hkid⟩ := hksel
          obtain ⟨-, ⟨c, hc, -⟩, -⟩ :=
            (shouldArchive_eq_true cutoff t0).mp (hsel_pred t0 ht0)
          have hhit := find?_archive_fold_hit fmtMonth now branch _
            (apply_events [] log) t0 c hsel_nodup hsel_completed ht0 hc
          rw [hsel_find t0 ht0, hkid] at hhit
          rw [hhit] at hf1
          have hp2 : p.2 = { t0 with archived := some (fmtMonth c), updated := now } := by
            injection hf1.symm
          rw [hpt] at hp2
          rw [hp2, shouldArchive_of_archived cutoff
            { t0 with archived := some (fmtMonth c), updated := now } rfl]
          simp
        · push_neg at hksel
          have hmiss := find?_archive_fold_miss fmtMonth now branch _
            (apply_events [] log) p.1 hksel
          rw [hmiss] at hf1
          intro hpred
          have hval : p.2 ∈ taskValues (apply_events [] log) :=
            List.mem_map.mpr ⟨(p.1, p.2), mem_of_find?_eq_some _ _ _ hf1, rfl⟩
          have hfl : p.2 ∈ (taskValues (apply_events [] log)).filter
              (shouldArchive cutoff) :=
            List.mem_filter.mpr ⟨hval, by rw [hpt]; exact hpred⟩
          have hselmem : p.2 ∈ sortByCompleted
              ((taskValues (apply_events [] log)).filter (shouldArchive cutoff)) :=
            (List.perm_insertionSort _ _).mem_iff.mpr hfl
          exact hksel p.2 hselmem (hids0 p.1 p.2 hf1)
      rw [archive_tasks_run fmtMonth _ cutoff now2 branch2, hfilter2]
      rfl

/-- C9.  A resource failure while reading the logs is fatal to the
validate call: whenever materialization of the same files fails (as it
does for a file that exists but cannot be opened, whose error carries
the file path), validate propagates that failure as an error result
instead of completing with a ValidationResult; the second conjunct
exhibits the path-carrying error an unopenable file produces. -/
theorem validate_resource_error_fatal (parseTs : String → Option Nat)
    (eventFiles archiveFiles : List LogFile) (now : Nat) (strict : Bool)
    (name msg : String) (e : ReadError)
    (hm : materialize parseTs archiveFiles eventFiles now = .error e) :
    validate parseTs eventFiles archiveFiles now strict = .error (.io e)
    ∧ parse_events_from_file parseTs name (.cantOpen msg) =
      .error (.openFailed name msg) := by
  constructor
  · simp only [validate, hm]
  · rfl

/-- Witness for C9: validating a directory whose daily log exists but
cannot be opened fails with the propagated open error naming the file. -/
theorem validate_resource_error_fatal_witness :
    materialize sampleParseTs [] [sampleUnreadableFile] 0 =
      .error (.openFailed "2024-01-02.jsonl" "permission denied")
    ∧ (validate sampleParseTs [sampleUnreadableFile] [] 0 false =
        .error (.io (.openFailed "2024-01-02.jsonl" "permission denied"))
      ∧ parse_events_from_file sampleParseTs "2024-01-02.jsonl"
          (.cantOpen "permission denied") =
        .error (.openFailed "2024-01-02.jsonl" "permission denied")) := by
  refine ⟨rfl, ?_⟩
  exact validate_resource_error_fatal sampleParseTs [sampleUnreadableFile] []
    0 false "2024-01-02.jsonl" "permission denied" _ rfl

end Fabric
